import Mathlib

/-!
Shallow embedding of src/getohlcpy/getohlcpy.py.

Modelling conventions:
* Timestamps are epoch seconds as `Int`.  The source stores `OpenTime` as a
  timezone-aware pandas timestamp displayed in the fixed UTC+9 offset
  (`TZ_JTC`); `tz_convert` changes only the display representation, never the
  instant, so the key is faithfully the instant `CloseTime - 60`.
* OHLCV fields are `ℚ`; the source parses them as Python floats but the
  pipeline only copies and compares them (no arithmetic), so exact rationals
  are a faithful carrier.
* A pandas cell that may be NaN (missing) is `Option ℚ`; `none` is NaN.
* Fallible pandas operations (`list(keys())[0]` on an empty dict,
  `df.index[0]` on an empty frame: both raise `IndexError`) return `Option`.
* The pandas outer index-merge in `_fillna_ohlcv` is modelled for the frames
  this pipeline feeds it (unique sorted index, as produced by `_reformat`
  from ascending upstream rows): its index is the sorted deduplicated union
  of the two indexes, and each key maps to the original row when present,
  otherwise to an all-NaN row.
-/

namespace Getohlcpy

/-- The fixed UTC+9 display offset (`TZ_JTC = timezone(timedelta(hours=+9))`),
in seconds.  Representation-only: it never shifts the stored instant. -/
def TZ_JTC : Int := 9 * 3600

/-- One raw upstream row `[CloseTime, Open, High, Low, Close, Volume,
QuoteVolume]` as delivered under the period key of the JSON payload. -/
structure RawRow where
  CloseTime : Int
  Open : ℚ
  High : ℚ
  Low : ℚ
  Close : ℚ
  Volume : ℚ
  QuoteVolume : ℚ
deriving DecidableEq

/-- One normalized candle row: key `OpenTime` plus six possibly-missing
(NaN-able) OHLCV cells, exactly the columns kept by `_reformat`. -/
structure PRow where
  OpenTime : Int
  Open : Option ℚ
  High : Option ℚ
  Low : Option ℚ
  Close : Option ℚ
  Volume : Option ℚ
  QuoteVolume : Option ℚ
deriving DecidableEq

/-- The JSON payload's `result` object: an association list from period keys
(e.g. "60") to row lists, in JSON key order. -/
structure Payload where
  result : List (String × List RawRow)
deriving DecidableEq

/-- `_response_to_df`: takes `result`, then `period = list(json.keys())[0]`
and the rows under it.  An empty `result` object makes `[0]` raise
(`IndexError`), modelled as `none`. -/
def _response_to_df (p : Payload) : Option (List RawRow) :=
  match p.result with
  | [] => none
  | (_, rows) :: _ => some rows

/-- `_reformat`: `OpenTime = CloseTime - 60`, converted to a UTC+9-displayed
timestamp (same instant) and used as the index; only the six OHLCV columns
are kept, all present. -/
def _reformat (rows : List RawRow) : List PRow :=
  rows.map fun r =>
    { OpenTime := r.CloseTime - 60, Open := some r.Open, High := some r.High,
      Low := some r.Low, Close := some r.Close, Volume := some r.Volume,
      QuoteVolume := some r.QuoteVolume }

/-- The index (key column) of a series. -/
def seriesKeys (df : List PRow) : List Int := df.map fun r => r.OpenTime

/-- `n` minute keys starting at `t`, 60 seconds apart. -/
def gridAux : Nat → Int → List Int
  | 0, _ => []
  | n + 1, t => t :: gridAux n (t + 60)

/-- `pd.date_range(start=t0, end=tN, freq='1min')`: every minute step from
`t0` that does not pass `tN`; empty when `t0 > tN`. -/
def dateRange (t0 tN : Int) : List Int :=
  if t0 ≤ tN then gridAux ((tN - t0).toNat / 60 + 1) t0 else []

/-- Insert a key into a sorted key list, keeping it sorted and deduplicated. -/
def insertKey (t : Int) : List Int → List Int
  | [] => [t]
  | y :: ys => if t < y then t :: y :: ys else if t = y then y :: ys else y :: insertKey t ys

/-- Index of the outer merge: sorted deduplicated union of the frame's index
with the date-range index. -/
def outerMergeKeys (dfKeys grid : List Int) : List Int :=
  dfKeys.foldr insertKey grid

/-- The row the outer merge puts at key `t`: the frame's row when the key is
present, otherwise an all-NaN row (the `ts` helper column is dropped again
immediately, so it is not modelled). -/
def mergedRowAt (df : List PRow) (t : Int) : PRow :=
  match df.find? (fun r => r.OpenTime == t) with
  | some r => r
  | none => { OpenTime := t, Open := none, High := none, Low := none,
              Close := none, Volume := none, QuoteVolume := none }

/-- `df.merge(ts, how='outer', right_index=True, left_index=True)` followed by
dropping the helper column. -/
def outerMerge (df : List PRow) (grid : List Int) : List PRow :=
  (outerMergeKeys (seriesKeys df) grid).map (mergedRowAt df)

/-- `df['Close'] = df['Close'].interpolate('ffill')`: each missing close takes
the running previous non-missing close (`prev`). -/
def ffillClose : Option ℚ → List PRow → List PRow
  | _, [] => []
  | prev, r :: rs =>
    match r.Close with
    | some v => r :: ffillClose (some v) rs
    | none => { r with Close := prev } :: ffillClose prev rs

/-- `df.iloc[:, :4] = df.iloc[:, :4].interpolate(axis=1, method='bfill')`:
row-wise backward fill across the columns `[Open, High, Low, Close]` — a
missing cell takes the nearest non-missing cell to its right in the row. -/
def bfillRow (r : PRow) : PRow :=
  let low := match r.Low with | some v => some v | none => r.Close
  let high := match r.High with | some v => some v | none => low
  let o := match r.Open with | some v => some v | none => high
  { r with Open := o, High := high, Low := low }

/-- `df['Volume'].fillna(0)` and `df['QuoteVolume'].fillna(0)`. -/
def fillVol (r : PRow) : PRow :=
  { r with Volume := some (r.Volume.getD 0), QuoteVolume := some (r.QuoteVolume.getD 0) }

/-- `_fillna_ohlcv`: on an empty frame `df.index[0]` raises (`none`);
otherwise outer-merge with the minute date range from first to last key,
forward-fill `Close`, row-wise backfill `Open/High/Low`, zero-fill volumes. -/
def _fillna_ohlcv (df : List PRow) : Option (List PRow) :=
  match df with
  | [] => none
  | r0 :: _ =>
    let t0 := r0.OpenTime
    let tN := (df.getLast?.getD r0).OpenTime
    let merged := outerMerge df (dateRange t0 tN)
    some (((ffillClose none merged).map bfillRow).map fillVol)

/-- `_csv_merge`: drop from the fresh frame every row whose key occurs in the
archive index with its last entry excluded (`df_cashe.index[:-1]`), then
`pd.concat([df_cashe, df_diff])` — archive rows first, kept fresh rows
appended after, nothing replaced and nothing deduplicated by `concat`. -/
def _csv_merge (df : List PRow) (df_cashe : List PRow) : List PRow :=
  df_cashe ++ df.filter (fun r => ! (seriesKeys df_cashe.dropLast).contains r.OpenTime)

/-- `get_ohlcv`: fetch (external), then `_response_to_df`, `_reformat`,
`_fillna_ohlcv`. -/
def get_ohlcv (p : Payload) : Option (List PRow) :=
  (_response_to_df p).bind fun rows => _fillna_ohlcv (_reformat rows)

/-- `get_ohlcv_with_archive`, with the fetch abstracted into the already
computed fresh series `fresh`.  `archive_given` models
`isinstance(archive_file, str)`; `archive` models the file at that path
(`none` = `os.path.exists` false, `some` = its parsed contents, the Store
read `load_ohlcv` being treated as the abstract tabular read).  Returns the
resulting frame and the archive file contents after the call. -/
def get_ohlcv_with_archive (fresh : List PRow) (archive_given : Bool)
    (archive : Option (List PRow)) (archive_update : Bool) :
    List PRow × Option (List PRow) :=
  if archive_given then
    match archive with
    | some arc =>
      let merged := _csv_merge fresh arc
      (merged, if archive_update then some merged else some arc)
    | none => (fresh, none)
  else
    (fresh, archive)

/-- Observable outcome of one `load_ohlcv_with_cashe` call: returned frame,
pickle-cache file contents after the call, archive file contents after the
call, and whether the fetch pipeline ran at all. -/
structure CacheResult where
  result : List PRow
  cache : Option (List PRow)
  archiveAfter : Option (List PRow)
  fetched : Bool
deriving DecidableEq

/-- `load_ohlcv_with_cashe`: if the pickle file exists its contents are
returned as is (no fetch, no merge, no writes); otherwise the full
`get_ohlcv_with_archive` pipeline runs and its result is pickled. -/
def load_ohlcv_with_cashe (fresh : List PRow) (cache : Option (List PRow))
    (archive_given : Bool) (archive : Option (List PRow))
    (archive_update : Bool) : CacheResult :=
  match cache with
  | some df => ⟨df, some df, archive, false⟩
  | none =>
    let r := get_ohlcv_with_archive fresh archive_given archive archive_update
    ⟨r.1, some r.1, r.2, true⟩

/-! ### Helper lemmas about the gap-fill machinery -/

lemma insertKey_of_mem : ∀ (ys : List Int) (t : Int),
    List.Pairwise (· < ·) ys → t ∈ ys → insertKey t ys = ys := by
  intro ys
  induction ys with
  | nil => intro t _ ht; cases ht
  | cons y ys ih =>
    intro t hp ht
    rcases List.pairwise_cons.mp hp with ⟨hy, hp'⟩
    by_cases h1 : t < y
    · rcases List.mem_cons.mp ht with rfl | ht'
      · exact absurd h1 (lt_irrefl t)
      · have := hy t ht'
        exact absurd h1 (by omega)
    · by_cases h2 : t = y
      · simp [insertKey, h1, h2]
      · have ht' : t ∈ ys := by
          rcases List.mem_cons.mp ht with rfl | ht'
          · exact absurd rfl h2
          · exact ht'
        simp [insertKey, h1, h2, ih t hp' ht']

lemma outerMergeKeys_of_subset (xs ys : List Int)
    (hys : List.Pairwise (· < ·) ys) (hsub : ∀ x ∈ xs, x ∈ ys) :
    outerMergeKeys xs ys = ys := by
  induction xs with
  | nil => rfl
  | cons x xs ih =>
    have h1 : outerMergeKeys (x :: xs) ys = insertKey x (outerMergeKeys xs ys) := rfl
    rw [h1, ih (fun a ha => hsub a (List.mem_cons_of_mem _ ha)),
      insertKey_of_mem ys x hys (hsub x (List.mem_cons_self _ _))]

lemma gridAux_length : ∀ (n : Nat) (t : Int), (gridAux n t).length = n := by
  intro n
  induction n with
  | zero => intro t; rfl
  | succ n ih => intro t; simp [gridAux, ih]

lemma mem_gridAux : ∀ (n : Nat) (t x : Int),
    x ∈ gridAux n t ↔ ∃ k : Nat, k < n ∧ x = t + 60 * (k : Int) := by
  intro n
  induction n with
  | zero => intro t x; simp [gridAux]
  | succ n ih =>
    intro t x
    simp only [gridAux, List.mem_cons, ih]
    constructor
    · rintro (rfl | ⟨k, hk, rfl⟩)
      · exact ⟨0, by omega, by push_cast; ring⟩
      · exact ⟨k + 1, by omega, by push_cast; ring⟩
    · rintro ⟨k, hk, rfl⟩
      cases k with
      | zero => left; push_cast; ring
      | succ k => right; exact ⟨k, by omega, by push_cast; ring⟩

lemma chain'_gridAux : ∀ (n : Nat) (t : Int),
    List.Chain' (fun a b => b = a + 60) (gridAux n t) := by
  intro n
  induction n with
  | zero => intro t; simp [gridAux]
  | succ n ih =>
    intro t
    show List.Chain' _ (t :: gridAux n (t + 60))
    refine List.chain'_cons'.mpr ⟨?_, ih (t + 60)⟩
    intro y hy
    cases n with
    | zero => simp [gridAux] at hy
    | succ m =>
      simp only [gridAux, List.head?_cons, Option.mem_def, Option.some.injEq] at hy
      omega

lemma pairwise_gridAux (n : Nat) (t : Int) :
    List.Pairwise (· < ·) (gridAux n t) := by
  have htr : IsTrans Int (· < ·) := ⟨fun a b c hab hbc => lt_trans hab hbc⟩
  have h := List.Chain'.imp
    (fun a b (h : b = a + 60) => h ▸ (by omega : a < a + 60)) (chain'_gridAux n t)
  exact List.chain'_iff_pairwise.mp h

lemma chainKeys_pairwise (l : List PRow)
    (h : List.Chain' (fun a b : PRow => a.OpenTime < b.OpenTime) l) :
    List.Pairwise (fun a b : PRow => a.OpenTime < b.OpenTime) l := by
  have htr : IsTrans PRow (fun a b => a.OpenTime < b.OpenTime) :=
    ⟨fun a b c hab hbc => lt_trans hab hbc⟩
  exact List.chain'_iff_pairwise.mp h

lemma head_key_le (l : List PRow) (r0 : PRow) (h0 : l.head? = some r0)
    (hp : List.Pairwise (fun a b : PRow => a.OpenTime < b.OpenTime) l) :
    ∀ r ∈ l, r0.OpenTime ≤ r.OpenTime := by
  cases l with
  | nil => cases h0
  | cons a t =>
    rw [List.head?_cons] at h0
    have ha := Option.some.inj h0
    subst ha
    intro r hr
    rcases List.mem_cons.mp hr with rfl | hr'
    · exact le_refl _
    · exact le_of_lt ((List.pairwise_cons.mp hp).1 r hr')

lemma mem_of_getLast?_eq_some : ∀ (l : List PRow) (a : PRow), l.getLast? = some a → a ∈ l := by
  intro l
  induction l with
  | nil => intro a h; cases h
  | cons x t ih =>
    intro a h
    cases t with
    | nil =>
      rw [List.getLast?_singleton] at h
      have := Option.some.inj h
      subst this
      exact List.mem_cons_self _ _
    | cons y u =>
      rw [List.getLast?_cons_cons] at h
      exact List.mem_cons_of_mem _ (ih a h)

lemma getLast_key_ge : ∀ (l : List PRow) (rN : PRow), l.getLast? = some rN →
    List.Pairwise (fun a b : PRow => a.OpenTime < b.OpenTime) l →
    ∀ r ∈ l, r.OpenTime ≤ rN.OpenTime := by
  intro l
  induction l with
  | nil => intro rN h; cases h
  | cons a t ih =>
    intro rN hN hp r hr
    cases t with
    | nil =>
      rw [List.getLast?_singleton] at hN
      have := Option.some.inj hN
      subst this
      rcases List.mem_cons.mp hr with rfl | hr'
      · exact le_refl _
      · cases hr'
    | cons b u =>
      rw [List.getLast?_cons_cons] at hN
      rcases List.pairwise_cons.mp hp with ⟨ha, hp'⟩
      rcases List.mem_cons.mp hr with rfl | hr'
      · exact le_of_lt (ha rN (mem_of_getLast?_eq_some _ rN hN))
      · exact ih rN hN hp' r hr'

lemma mergedRowAt_key (df : List PRow) (t : Int) : (mergedRowAt df t).OpenTime = t := by
  unfold mergedRowAt
  cases h : df.find? (fun r => r.OpenTime == t) with
  | none => rfl
  | some r =>
    have := List.find?_some h
    simpa using this

lemma seriesKeys_map_mergedRowAt (df : List PRow) (g : List Int) :
    seriesKeys (g.map (mergedRowAt df)) = g := by
  unfold seriesKeys
  rw [List.map_map]
  have h : ∀ x ∈ g, ((fun r : PRow => r.OpenTime) ∘ mergedRowAt df) x = id x :=
    fun x _ => mergedRowAt_key df x
  rw [List.map_congr_left h, List.map_id]

lemma ffillClose_cons_some (prev : Option ℚ) (a : PRow) (t : List PRow) (v : ℚ)
    (h : a.Close = some v) :
    ffillClose prev (a :: t) = a :: ffillClose (some v) t := by
  simp [ffillClose, h]

lemma ffillClose_cons_none (prev : Option ℚ) (a : PRow) (t : List PRow)
    (h : a.Close = none) :
    ffillClose prev (a :: t) = { a with Close := prev } :: ffillClose prev t := by
  simp [ffillClose, h]

lemma seriesKeys_ffillClose : ∀ (prev : Option ℚ) (l : List PRow),
    seriesKeys (ffillClose prev l) = seriesKeys l := by
  intro prev l
  induction l generalizing prev with
  | nil => rfl
  | cons r rs ih =>
    cases h : r.Close with
    | some v =>
      rw [ffillClose_cons_some prev r rs v h]
      simp only [seriesKeys, List.map_cons]
      exact congrArg (List.cons r.OpenTime) (ih (some v))
    | none =>
      rw [ffillClose_cons_none prev r rs h]
      simp only [seriesKeys, List.map_cons]
      exact congrArg (List.cons r.OpenTime) (ih prev)

lemma seriesKeys_map_bfill (l : List PRow) : seriesKeys (l.map bfillRow) = seriesKeys l := by
  unfold seriesKeys
  rw [List.map_map]
  exact List.map_congr_left (fun a _ => rfl)

lemma seriesKeys_map_fillVol (l : List PRow) : seriesKeys (l.map fillVol) = seriesKeys l := by
  unfold seriesKeys
  rw [List.map_map]
  exact List.map_congr_left (fun a _ => rfl)

lemma bfillRow_close (r : PRow) : (bfillRow r).Close = r.Close := rfl

lemma fillVol_close (r : PRow) : (fillVol r).Close = r.Close := rfl

lemma ffillClose_isSome : ∀ (l : List PRow) (prev : Option ℚ), prev.isSome →
    ∀ r ∈ ffillClose prev l, r.Close.isSome := by
  intro l
  induction l with
  | nil => intro prev _ r hr; cases hr
  | cons a t ih =>
    intro prev hp r hr
    cases h : a.Close with
    | some v =>
      rw [ffillClose_cons_some prev a t v h] at hr
      rcases List.mem_cons.mp hr with rfl | hr'
      · rw [h]; rfl
      · exact ih (some v) rfl r hr'
    | none =>
      rw [ffillClose_cons_none prev a t h] at hr
      rcases List.mem_cons.mp hr with rfl | hr'
      · exact hp
      · exact ih prev hp r hr'

/-- Head step of the flat-candle argument: if the first row of the remaining
merged list is synthesized (all cells missing) then, after the three fill
passes, it is a flat candle at the carried-forward close `c` with zero
volumes, and its close agrees with any already-filled predecessor whose close
is `c`. -/
lemma fill_head_flat (K : List Int) (c : Option ℚ) (t : List PRow)
    (hsynt : ∀ r ∈ t, r.OpenTime ∉ K →
        r.Open = none ∧ r.High = none ∧ r.Low = none ∧ r.Close = none ∧
        r.Volume = none ∧ r.QuoteVolume = none)
    (aout : PRow) (hac : aout.Close = c) :
    ∀ y ∈ (((ffillClose c t).map bfillRow).map fillVol).head?,
      y.OpenTime ∉ K →
        (y.Open = y.Close ∧ y.High = y.Close ∧ y.Low = y.Close ∧
         y.Close = aout.Close ∧ y.Volume = some 0 ∧ y.QuoteVolume = some 0) := by
  intro y hy hyK
  cases t with
  | nil => simp [ffillClose] at hy
  | cons s ss =>
    cases hs : s.Close with
    | some w =>
      rw [ffillClose_cons_some c s ss w hs] at hy
      simp only [List.map_cons, List.head?_cons, Option.mem_def, Option.some.injEq] at hy
      subst hy
      have hkey : (fillVol (bfillRow s)).OpenTime = s.OpenTime := rfl
      rw [hkey] at hyK
      rcases hsynt s (List.mem_cons_self _ _) hyK with ⟨_, _, _, hC, _, _⟩
      rw [hs] at hC
      cases hC
    | none =>
      rw [ffillClose_cons_none c s ss hs] at hy
      simp only [List.map_cons, List.head?_cons, Option.mem_def, Option.some.injEq] at hy
      subst hy
      have hkey : (fillVol (bfillRow { s with Close := c })).OpenTime = s.OpenTime := rfl
      rw [hkey] at hyK
      rcases hsynt s (List.mem_cons_self _ _) hyK with ⟨hO, hH, hL, _, hV, hQ⟩
      refine ⟨?_, ?_, ?_, ?_, ?_, ?_⟩ <;>
        simp [fillVol, bfillRow, hO, hH, hL, hV, hQ, hac]

/-- The flat-candle chain over the whole fill output: every synthesized row
(key outside `K`, all cells missing before the passes) ends up a zero-volume
flat candle whose close equals its predecessor's close. -/
lemma fill_chain_flat (K : List Int) :
    ∀ (l : List PRow) (prev : Option ℚ),
    (∀ r ∈ l, r.OpenTime ∉ K →
        r.Open = none ∧ r.High = none ∧ r.Low = none ∧ r.Close = none ∧
        r.Volume = none ∧ r.QuoteVolume = none) →
    List.Chain' (fun a b => b.OpenTime ∉ K →
        (b.Open = b.Close ∧ b.High = b.Close ∧ b.Low = b.Close ∧
         b.Close = a.Close ∧ b.Volume = some 0 ∧ b.QuoteVolume = some 0))
      (((ffillClose prev l).map bfillRow).map fillVol) := by
  intro l
  induction l with
  | nil => intro prev _; simp [ffillClose]
  | cons a t ih =>
    intro prev hsyn
    have hsynt : ∀ r ∈ t, r.OpenTime ∉ K →
        r.Open = none ∧ r.High = none ∧ r.Low = none ∧ r.Close = none ∧
        r.Volume = none ∧ r.QuoteVolume = none :=
      fun r hr => hsyn r (List.mem_cons_of_mem _ hr)
    cases h : a.Close with
    | some v =>
      rw [ffillClose_cons_some prev a t v h]
      simp only [List.map_cons]
      refine List.chain'_cons'.mpr ⟨?_, ih (some v) hsynt⟩
      exact fill_head_flat K (some v) t hsynt (fillVol (bfillRow a))
        (by rw [fillVol_close, bfillRow_close, h])
    | none =>
      rw [ffillClose_cons_none prev a t h]
      simp only [List.map_cons]
      refine List.chain'_cons'.mpr ⟨?_, ih prev hsynt⟩
      exact fill_head_flat K prev t hsynt (fillVol (bfillRow { a with Close := prev }))
        (by rw [fillVol_close, bfillRow_close])

lemma fillna_cons (a : PRow) (t : List PRow) :
    _fillna_ohlcv (a :: t) = some (((ffillClose none (outerMerge (a :: t)
      (dateRange a.OpenTime (((a :: t).getLast?.getD a).OpenTime)))).map bfillRow).map fillVol) :=
  rfl

/-- Under the pipeline's preconditions (nonempty, strictly ascending,
minute-aligned index) the outer merge's index is exactly the minute grid from
the first to the last key, so `_fillna_ohlcv` is the three fill passes over
the grid populated by `mergedRowAt`. -/
lemma fillna_struct (df : List PRow) (r0 rN : PRow)
    (h0 : df.head? = some r0) (hN : df.getLast? = some rN)
    (hchain : List.Chain' (fun a b : PRow => a.OpenTime < b.OpenTime) df)
    (halign : ∀ r ∈ df, (60:Int) ∣ (r.OpenTime - r0.OpenTime)) :
    _fillna_ohlcv df = some (((ffillClose none
      ((gridAux ((rN.OpenTime - r0.OpenTime).toNat / 60 + 1) r0.OpenTime).map
        (mergedRowAt df))).map bfillRow).map fillVol) := by
  have hp := chainKeys_pairwise df hchain
  have hr0mem : r0 ∈ df := List.mem_of_mem_head? (by rw [h0]; rfl)
  have ht0N : r0.OpenTime ≤ rN.OpenTime := getLast_key_ge df rN hN hp r0 hr0mem
  have hsub : ∀ x ∈ seriesKeys df,
      x ∈ gridAux ((rN.OpenTime - r0.OpenTime).toNat / 60 + 1) r0.OpenTime := by
    intro x hx
    rcases List.mem_map.mp hx with ⟨r, hr, rfl⟩
    rcases halign r hr with ⟨c, hc⟩
    have h1 := head_key_le df r0 h0 hp r hr
    have h2 := getLast_key_ge df rN hN hp r hr
    rw [mem_gridAux]
    exact ⟨c.toNat, by omega, by omega⟩
  cases df with
  | nil => cases h0
  | cons a t =>
    rw [List.head?_cons] at h0
    have ha := Option.some.inj h0
    subst ha
    rw [fillna_cons, hN, Option.getD_some]
    have hrange : dateRange a.OpenTime rN.OpenTime =
        gridAux ((rN.OpenTime - a.OpenTime).toNat / 60 + 1) a.OpenTime := by
      unfold dateRange
      rw [if_pos ht0N]
    rw [hrange]
    unfold outerMerge
    rw [outerMergeKeys_of_subset _ _ (pairwise_gridAux _ _) hsub]

/-! ### Concrete series used by the scenario theorems -/

/-- Archive row at 09:00 JST (epoch-of-day 32400), value A = 10. -/
def rowA : PRow := ⟨32400, some 10, some 10, some 10, some 10, some 10, some 10⟩

/-- Archive row at 09:01, value B = 20. -/
def rowB : PRow := ⟨32460, some 20, some 20, some 20, some 20, some 20, some 20⟩

/-- Archive boundary row at 09:02, value C = 30. -/
def rowC : PRow := ⟨32520, some 30, some 30, some 30, some 30, some 30, some 30⟩

/-- Fresh row at 09:02, the re-confirmed boundary candle C' = 35. -/
def rowC' : PRow := ⟨32520, some 35, some 35, some 35, some 35, some 35, some 35⟩

/-- Fresh row at 09:03, value D = 40. -/
def rowD : PRow := ⟨32580, some 40, some 40, some 40, some 40, some 40, some 40⟩

/-- Fresh row at 09:04, value E = 50. -/
def rowE : PRow := ⟨32640, some 50, some 50, some 50, some 50, some 50, some 50⟩

/-- The archive of the spec's merge scenario: keys 09:00, 09:01, 09:02. -/
def archiveS : List PRow := [rowA, rowB, rowC]

/-- The gap-filled fresh series of the spec's merge scenario:
keys 09:02, 09:03, 09:04. -/
def freshS : List PRow := [rowC', rowD, rowE]

/-- The spec's raw-payload scenario: `result: {"60": [[1000,10,12,9,11,5,50]]}`. -/
def rawPayloadEx : Payload := ⟨[("60", [⟨1000, 10, 12, 9, 11, 5, 50⟩])]⟩

/-- A payload whose `result` object has no period key at all. -/
def emptyResultPayload : Payload := ⟨[]⟩

/-- A payload whose single period key holds an empty row list. -/
def emptyPeriodPayload : Payload := ⟨[("60", [])]⟩

/-- A one-row fresh series used by the archive-absent scenarios. -/
def freshEx : List PRow := [⟨0, some 1, some 1, some 1, some 1, some 1, some 1⟩]

/-- A two-row normalized series with one missing minute between its rows. -/
def dfGap : List PRow := [⟨0, some 10, some 12, some 9, some 11, some 5, some 50⟩,
  ⟨120, some 11, some 13, some 10, some 12, some 6, some 60⟩]

/-- First row of `dfGap`. -/
def dfGapR0 : PRow := ⟨0, some 10, some 12, some 9, some 11, some 5, some 50⟩

/-- Last row of `dfGap`. -/
def dfGapR1 : PRow := ⟨120, some 11, some 13, some 10, some 12, some 6, some 60⟩

/-- A series has strictly increasing keys when every pair of consecutive rows
satisfies `openTime_i < openTime_{i+1}`. -/
def strictIncreasing (l : List PRow) : Prop :=
  List.Chain' (fun a b => a.OpenTime < b.OpenTime) l

/-! ### Claim theorems -/

/-- C1: FALSIFIED BY THE CODE.  On the spec's own scenario (archive keys
09:00/09:01/09:02 with values A,B,C; fresh keys 09:02/09:03/09:04 with values
C',D,E) `_csv_merge` keeps the fresh boundary row at key 09:02 (only
`index[:-1]` is used for the duplicate filter) but `pd.concat` also keeps the
archive's boundary row: the result's index is
[09:00, 09:01, 09:02, 09:02, 09:03, 09:04] with TWO rows at the boundary key,
the archive's C followed by the fresh C' — not the claimed single replaced
row. -/
theorem c1_merge_duplicates_boundary_key :
    _csv_merge freshS archiveS = [rowA, rowB, rowC, rowC', rowD, rowE] ∧
    seriesKeys (_csv_merge freshS archiveS) =
      [32400, 32460, 32520, 32520, 32580, 32640] ∧
    ((_csv_merge freshS archiveS).filter (fun r => r.OpenTime == 32520)).length = 2 := by
  refine ⟨by decide, by decide, by decide⟩

/-- C2: FALSIFIED BY THE CODE for the merged series.  The normalized archive
and fresh series of the scenario both have strictly increasing keys, but the
merge output repeats the boundary key 09:02 twice in consecutive rows, so the
ordering invariant `r_i.openTime < r_{i+1}.openTime` fails on `_csv_merge`'s
output. -/
theorem c2_merge_output_not_strictly_increasing :
    strictIncreasing archiveS ∧ strictIncreasing freshS ∧
    ¬ strictIncreasing (_csv_merge freshS archiveS) := by
  refine ⟨?_, ?_, ?_⟩
  · simp [strictIncreasing, archiveS, rowA, rowB, rowC, List.chain'_cons]
  · simp [strictIncreasing, freshS, rowC', rowD, rowE, List.chain'_cons]
  · have e : _csv_merge freshS archiveS = [rowA, rowB, rowC, rowC', rowD, rowE] := by decide
    rw [strictIncreasing, e]
    simp [rowA, rowB, rowC, rowC', rowD, rowE, List.chain'_cons]

/-- C3: every row synthesized by `_fillna_ohlcv` at a minute absent from its
input (given a nonempty, strictly ascending, minute-aligned input whose rows
have known closes, as `_reformat` produces) is a flat candle:
open = high = low = close, the shared value is the close of the nearest
preceding row with a known close (every output row has a known close, so that
is the immediate predecessor), and volume = quoteVolume = 0. -/
theorem c3_gap_fill_flat_candle (df : List PRow) (r0 rN : PRow)
    (h0 : df.head? = some r0) (hN : df.getLast? = some rN)
    (hchain : List.Chain' (fun a b : PRow => a.OpenTime < b.OpenTime) df)
    (halign : ∀ r ∈ df, (60:Int) ∣ (r.OpenTime - r0.OpenTime))
    (hclose : ∀ r ∈ df, r.Close.isSome) :
    ∃ out, _fillna_ohlcv df = some out ∧
      (∀ r ∈ out, r.Close.isSome) ∧
      List.Chain' (fun a b => b.OpenTime ∉ seriesKeys df →
        (b.Open = b.Close ∧ b.High = b.Close ∧ b.Low = b.Close ∧
         b.Close = a.Close ∧ b.Volume = some 0 ∧ b.QuoteVolume = some 0)) out := by
  cases df with
  | nil => cases h0
  | cons a t =>
    rw [List.head?_cons] at h0
    have ha := Option.some.inj h0
    subst ha
    have hstruct := fillna_struct (a :: t) a rN (by rw [List.head?_cons]) hN hchain halign
    refine ⟨_, hstruct, ?_, ?_⟩
    · -- every output row has a known close
      rcases Option.isSome_iff_exists.mp (hclose a (List.mem_cons_self _ _)) with ⟨v, hv⟩
      have hgridcons : gridAux ((rN.OpenTime - a.OpenTime).toNat / 60 + 1) a.OpenTime =
          a.OpenTime :: gridAux ((rN.OpenTime - a.OpenTime).toNat / 60) (a.OpenTime + 60) := rfl
      have hfind : mergedRowAt (a :: t) a.OpenTime = a := by
        unfold mergedRowAt
        rw [List.find?_cons_of_pos _ (by simp)]
      have hmerged : (gridAux ((rN.OpenTime - a.OpenTime).toNat / 60 + 1) a.OpenTime).map
          (mergedRowAt (a :: t)) =
          a :: (gridAux ((rN.OpenTime - a.OpenTime).toNat / 60) (a.OpenTime + 60)).map
            (mergedRowAt (a :: t)) := by
        rw [hgridcons, List.map_cons, hfind]
      intro r hr
      rw [hmerged, ffillClose_cons_some none a _ v hv] at hr
      simp only [List.map_cons] at hr
      rcases List.mem_cons.mp hr with rfl | hr'
      · rw [fillVol_close, bfillRow_close, hv]; rfl
      · rcases List.mem_map.mp hr' with ⟨x1, hx1, rfl⟩
        rcases List.mem_map.mp hx1 with ⟨x2, hx2, rfl⟩
        rw [fillVol_close, bfillRow_close]
        exact ffillClose_isSome _ (some v) rfl x2 hx2
    · -- flat-candle chain
      have hsyn : ∀ r ∈ (gridAux ((rN.OpenTime - a.OpenTime).toNat / 60 + 1) a.OpenTime).map
          (mergedRowAt (a :: t)), r.OpenTime ∉ seriesKeys (a :: t) →
          r.Open = none ∧ r.High = none ∧ r.Low = none ∧ r.Close = none ∧
          r.Volume = none ∧ r.QuoteVolume = none := by
        intro r hr hK
        rcases List.mem_map.mp hr with ⟨x, hx, rfl⟩
        rw [mergedRowAt_key] at hK
        have hfind : (a :: t).find? (fun rr => rr.OpenTime == x) = none := by
          rw [List.find?_eq_none]
          intro rr hrr hbeq
          have hrx : rr.OpenTime = x := by simpa using hbeq
          exact hK (hrx ▸ List.mem_map_of_mem (fun q : PRow => q.OpenTime) hrr)
        unfold mergedRowAt
        rw [hfind]
        exact ⟨rfl, rfl, rfl, rfl, rfl, rfl⟩
      exact fill_chain_flat (seriesKeys (a :: t)) _ none hsyn

/-- C3 witness: the flat-candle theorem applied to the two-row series `dfGap`
whose minute 60 is missing. -/
theorem c3_gap_fill_flat_candle_witness :
    dfGap.head? = some dfGapR0 ∧ dfGap.getLast? = some dfGapR1 ∧
    List.Chain' (fun a b : PRow => a.OpenTime < b.OpenTime) dfGap ∧
    (∀ r ∈ dfGap, (60:Int) ∣ (r.OpenTime - dfGapR0.OpenTime)) ∧
    (∀ r ∈ dfGap, r.Close.isSome) ∧
    ∃ out, _fillna_ohlcv dfGap = some out ∧
      (∀ r ∈ out, r.Close.isSome) ∧
      List.Chain' (fun a b => b.OpenTime ∉ seriesKeys dfGap →
        (b.Open = b.Close ∧ b.High = b.Close ∧ b.Low = b.Close ∧
         b.Close = a.Close ∧ b.Volume = some 0 ∧ b.QuoteVolume = some 0)) out :=
  ⟨rfl, rfl, by simp [dfGap, List.chain'_cons], by decide, by decide,
   c3_gap_fill_flat_candle dfGap dfGapR0 dfGapR1 rfl rfl
     (by simp [dfGap, List.chain'_cons]) (by decide) (by decide)⟩

/-- C4: for a nonempty normalized series with minute-aligned, strictly
ascending keys spanning `[t0, tN]`, the gap-filled output has exactly
`(tN - t0)/60 + 1` rows, consecutive keys exactly 60 seconds apart, and no
key outside `[t0, tN]`. -/
theorem c4_gap_fill_density (df : List PRow) (r0 rN : PRow)
    (h0 : df.head? = some r0) (hN : df.getLast? = some rN)
    (hchain : List.Chain' (fun a b : PRow => a.OpenTime < b.OpenTime) df)
    (halign : ∀ r ∈ df, (60:Int) ∣ (r.OpenTime - r0.OpenTime)) :
    ∃ out, _fillna_ohlcv df = some out ∧
      (out.length : Int) = (rN.OpenTime - r0.OpenTime) / 60 + 1 ∧
      List.Chain' (fun a b : PRow => b.OpenTime = a.OpenTime + 60) out ∧
      ∀ r ∈ out, r0.OpenTime ≤ r.OpenTime ∧ r.OpenTime ≤ rN.OpenTime := by
  have hp := chainKeys_pairwise df hchain
  have hr0mem : r0 ∈ df := List.mem_of_mem_head? (by rw [h0]; rfl)
  have ht0N : r0.OpenTime ≤ rN.OpenTime := getLast_key_ge df rN hN hp r0 hr0mem
  have hstruct := fillna_struct df r0 rN h0 hN hchain halign
  have hkeys : seriesKeys (((ffillClose none
      ((gridAux ((rN.OpenTime - r0.OpenTime).toNat / 60 + 1) r0.OpenTime).map
        (mergedRowAt df))).map bfillRow).map fillVol) =
      gridAux ((rN.OpenTime - r0.OpenTime).toNat / 60 + 1) r0.OpenTime := by
    rw [seriesKeys_map_fillVol, seriesKeys_map_bfill, seriesKeys_ffillClose,
      seriesKeys_map_mergedRowAt]
  refine ⟨_, hstruct, ?_, ?_, ?_⟩
  · -- length
    have h1 := congrArg List.length hkeys
    simp only [seriesKeys, List.length_map, gridAux_length] at h1
    simp only [List.length_map]
    rw [h1]
    omega
  · -- 60-second spacing
    have hg := chain'_gridAux ((rN.OpenTime - r0.OpenTime).toNat / 60 + 1) r0.OpenTime
    rw [← hkeys] at hg
    simp only [seriesKeys] at hg
    exact (List.chain'_map _).mp hg
  · -- keys stay inside the observed span
    intro r hr
    have hmem : r.OpenTime ∈
        gridAux ((rN.OpenTime - r0.OpenTime).toNat / 60 + 1) r0.OpenTime := by
      rw [← hkeys]
      exact List.mem_map_of_mem _ hr
    rcases (mem_gridAux _ _ _).mp hmem with ⟨k, hk, hx⟩
    constructor <;> omega

/-- C4 witness: the density theorem applied to the two-row series `dfGap`
spanning 120 seconds, which gap-fills to three rows. -/
theorem c4_gap_fill_density_witness :
    dfGap.head? = some dfGapR0 ∧ dfGap.getLast? = some dfGapR1 ∧
    List.Chain' (fun a b : PRow => a.OpenTime < b.OpenTime) dfGap ∧
    (∀ r ∈ dfGap, (60:Int) ∣ (r.OpenTime - dfGapR0.OpenTime)) ∧
    ∃ out, _fillna_ohlcv dfGap = some out ∧
      (out.length : Int) = (dfGapR1.OpenTime - dfGapR0.OpenTime) / 60 + 1 ∧
      List.Chain' (fun a b : PRow => b.OpenTime = a.OpenTime + 60) out ∧
      ∀ r ∈ out, dfGapR0.OpenTime ≤ r.OpenTime ∧ r.OpenTime ≤ dfGapR1.OpenTime :=
  ⟨rfl, rfl, by simp [dfGap, List.chain'_cons], by decide,
   c4_gap_fill_density dfGap dfGapR0 dfGapR1 rfl rfl
     (by simp [dfGap, List.chain'_cons]) (by decide)⟩

/-- C5: `_reformat` keys every raw row at `CloseTime - 60` (the stored
instant; UTC+9 is display-only) and carries the six OHLCV fields over
numerically unchanged; on the concrete payload
`result: {"60": [[1000,10,12,9,11,5,50]]}` the pipeline yields one row at
key 940 with open=10, high=12, low=9, close=11, volume=5, quoteVolume=50,
and `_fillna_ohlcv` returns that single-row series unchanged. -/
theorem c5_normalization_round_trip :
    (∀ rows : List RawRow,
      seriesKeys (_reformat rows) = rows.map (fun r => r.CloseTime - 60) ∧
      (_reformat rows).map (fun r => r.Open) = rows.map (fun r => some r.Open) ∧
      (_reformat rows).map (fun r => r.High) = rows.map (fun r => some r.High) ∧
      (_reformat rows).map (fun r => r.Low) = rows.map (fun r => some r.Low) ∧
      (_reformat rows).map (fun r => r.Close) = rows.map (fun r => some r.Close) ∧
      (_reformat rows).map (fun r => r.Volume) = rows.map (fun r => some r.Volume) ∧
      (_reformat rows).map (fun r => r.QuoteVolume) =
        rows.map (fun r => some r.QuoteVolume)) ∧
    (_response_to_df rawPayloadEx).bind (fun rows => _fillna_ohlcv (_reformat rows)) =
      some [⟨940, some 10, some 12, some 9, some 11, some 5, some 50⟩] := by
  constructor
  · intro rows
    refine ⟨?_, ?_, ?_, ?_, ?_, ?_, ?_⟩ <;>
      (simp only [_reformat, seriesKeys, List.map_map]; rfl)
  · decide

/-- C6 counterexample: the claim says the pipeline yields an empty Series
without error when the payload has no period key, when the keyed list is
empty, and when the gap filler gets an empty series; in the code all three
paths raise (`list(json.keys())[0]` resp. `df.index[0]` on an empty frame),
modelled as `none`, so none of them returns `some []`. -/
theorem c6_empty_is_error_counterexample :
    ¬ ((_response_to_df emptyResultPayload).bind
          (fun rows => _fillna_ohlcv (_reformat rows)) = some [] ∧
       (_response_to_df emptyPeriodPayload).bind
          (fun rows => _fillna_ohlcv (_reformat rows)) = some [] ∧
       _fillna_ohlcv [] = some []) := by
  decide

/-- C6 (amended): a payload with no top-level period key, a payload whose
keyed period list is empty, and an empty Series given to the gap filler all
make the pipeline fail (an index-lookup error, modelled as `none`) instead of
returning an empty Series. -/
theorem c6_empty_input_raises :
    _response_to_df emptyResultPayload = none ∧
    (_response_to_df emptyPeriodPayload).bind
        (fun rows => _fillna_ohlcv (_reformat rows)) = none ∧
    _fillna_ohlcv [] = none := by
  decide

/-- C7 counterexample: with an archive path given, the archive file absent and
the update flag set, the claim says the fresh series is written as the new
archive; the code's `to_csv` sits inside the `os.path.exists` branch, so
nothing is written — the archive location still holds nothing after the
call. -/
theorem c7_no_write_when_archive_absent :
    (get_ohlcv_with_archive freshEx true none true).2 = none ∧
    ¬ (get_ohlcv_with_archive freshEx true none true).2 = some freshEx := by
  decide

/-- C7 (amended): when no archive path is given, or the archive file does not
exist, `get_ohlcv_with_archive` returns the fresh series unchanged and leaves
the archive location untouched — the update flag has no effect in these
cases; an archive is only (re)written when the file already exists. -/
theorem c7_absent_archive_passthrough (fresh : List PRow) (given : Bool)
    (arc : Option (List PRow)) (upd : Bool) (h : given = false ∨ arc = none) :
    get_ohlcv_with_archive fresh given arc upd = (fresh, arc) := by
  rcases h with h | h
  · subst h; rfl
  · subst h; cases given <;> rfl

/-- C7 witness: the amended theorem applied at a concrete input — archive
path given, file absent, update flag set. -/
theorem c7_absent_archive_passthrough_witness :
    (true = false ∨ (none : Option (List PRow)) = none) ∧
    get_ohlcv_with_archive freshEx true none true = (freshEx, none) :=
  ⟨Or.inr rfl, c7_absent_archive_passthrough freshEx true none true (Or.inr rfl)⟩

/-- C8: merging an empty fresh series returns the archive unchanged (the
filtered fresh side is empty and `concat` appends nothing), so re-merging an
empty fresh series against a just-merged archive changes nothing — the merge
is idempotent in this sense. -/
theorem c8_merge_empty_fresh_is_identity (archive fresh : List PRow) :
    _csv_merge [] archive = archive ∧
    _csv_merge [] (_csv_merge fresh archive) = _csv_merge fresh archive := by
  constructor <;> simp [_csv_merge]

/-- C9: when the pickle cache file exists, `load_ohlcv_with_cashe` returns the
stored series as is: no fetch runs, the cache file and the archive file keep
their contents.  On a cache miss the full `get_ohlcv_with_archive` pipeline
runs, its result is written to the cache path and returned. -/
theorem c9_cache_hit_is_memoized (fresh s : List PRow) (given : Bool)
    (arc : Option (List PRow)) (upd : Bool) :
    load_ohlcv_with_cashe fresh (some s) given arc upd = ⟨s, some s, arc, false⟩ ∧
    load_ohlcv_with_cashe fresh none given arc upd =
      ⟨(get_ohlcv_with_archive fresh given arc upd).1,
       some (get_ohlcv_with_archive fresh given arc upd).1,
       (get_ohlcv_with_archive fresh given arc upd).2, true⟩ :=
  ⟨rfl, rfl⟩

/-- C10: `_csv_merge` never touches the archive side — the archive rows form
the merged result's prefix, unchanged and in order (so a fresh row sharing a
pre-boundary archive key never alters the archive's stored values), and what
follows that prefix is a subsequence of the fresh series. -/
theorem c10_archive_side_intact (fresh archive : List PRow) :
    (_csv_merge fresh archive).take archive.length = archive ∧
    List.Sublist ((_csv_merge fresh archive).drop archive.length) fresh := by
  unfold _csv_merge
  refine ⟨List.take_left .., ?_⟩
  rw [List.drop_left]
  exact List.filter_sublist _

end Getohlcpy
